import Mathlib

/-!
Verification development for the better-auth-mcp documentation pipeline.

The Python sources are shallowly embedded:
* `src/scraper.py` — table-of-contents parsing, document fetching and the
  crawl orchestrator (network fetches are passed in as a function
  `String → Option String`, mirroring `request_page`, which returns the
  page text on a 2xx response and `None` on any failure);
* `src/feature_store.py` — the ChromaDB-backed document store, with the
  collection modelled as a list of stored records;
* `src/mcp-server.py` / `src/main.py` — the two MCP tools (their bodies are
  identical in both files);
* `src/chatbot.py` — the JSON-Schema to Gemini-schema translation and the
  bounded tool-calling loop.
-/

namespace BetterAuthMcp

/-! ### Python string primitives

`str.strip()` and the regex class `\s` treat the six ASCII whitespace
characters space, tab, newline, carriage return, vertical tab and form feed
as whitespace. -/

def isPyWs (c : Char) : Bool :=
  c == ' ' || c == '\t' || c == '\n' || c == '\r' || c == '\x0b' || c == '\x0c'

def pyStripL (cs : List Char) : List Char :=
  ((cs.dropWhile isPyWs).reverse.dropWhile isPyWs).reverse

/-- Python `str.strip()` with no arguments. -/
def pyStrip (s : String) : String :=
  (pyStripL s.toList).asString

def startsWithL (p cs : List Char) : Bool :=
  cs.take p.length == p

/-- Python `str.upper()` (ASCII range; the schema type names it is applied
to are ASCII). -/
def pyUpper (s : String) : String :=
  (s.toList.map Char.toUpper).asString

/-! ### Table-of-contents parsing (`scraper.py`, `parse_toc`)

The line filter `re.match(r"^###\s+", line)` and the link pattern
`re.search(r"\[([^\]]+)\]\((/llms\.txt[^\)]+)\)(?:\s*:\s*(.+))?", line)`
are embedded as character-list scanners with the regex engine's
leftmost-match semantics: the character classes `[^\]]+` and `[^\)]+`
exclude their own closing delimiter, so each candidate start position
admits exactly one candidate match and no further backtracking arises,
except inside the optional `\s*:\s*(.+)` suffix (handled in `optDesc`). -/

/-- `re.match(r"^###\s+", line)`: exactly three `#` followed by at least one
whitespace character. (`####`-lines do not match: the fourth character after
`###` must be whitespace.) -/
def isCategoryHeader : List Char → Bool
  | '#' :: '#' :: '#' :: c :: _ => isPyWs c
  | _ => false

def llmsRoot : List Char := "/llms.txt".toList

/-- `(?:\s*:\s*(.+))?` applied at the position right after the closing
parenthesis. `.+` cannot match a newline, but lines produced by
`split("\n")` contain none. If everything after the colon is whitespace,
the greedy second `\s*` backtracks by one character so that `.+` matches
the final character; if nothing follows the colon the optional group
matches empty and group 3 is `None`. -/
def optDesc (after : List Char) : Option (List Char) :=
  match after.dropWhile isPyWs with
  | ':' :: tl =>
    let d := tl.dropWhile isPyWs
    if d.isEmpty then
      if tl.isEmpty then none else some (tl.drop (tl.length - 1))
    else some d
  | _ => none

/-- Attempt the link pattern with the leading `\[` already consumed:
`([^\]]+)\]\((/llms\.txt[^\)]+)\)(?:\s*:\s*(.+))?`.
Returns `(title group, route group, optional description group)`. -/
def tryLinkAt (cs : List Char) : Option (List Char × List Char × Option (List Char)) :=
  let title := cs.takeWhile (fun c => c != ']')
  if title.isEmpty then none
  else
    match cs.drop title.length with
    | ']' :: '(' :: tl =>
      if startsWithL llmsRoot tl then
        let tl2 := tl.drop llmsRoot.length
        let ext := tl2.takeWhile (fun c => c != ')')
        if ext.isEmpty then none
        else
          match tl2.drop ext.length with
          | ')' :: after => some (title, llmsRoot ++ ext, optDesc after)
          | _ => none
      else none
    | _ => none

/-- `re.search` of the link pattern: try every position left to right; a
match can only begin at a literal `[`. -/
def findLink : List Char → Option (List Char × List Char × Option (List Char))
  | [] => none
  | '[' :: rest =>
    match tryLinkAt rest with
    | some r => some r
    | none => findLink rest
  | _ :: rest => findLink rest

structure TocMeta where
  title : String
  description : String
deriving DecidableEq, Repr

/-- Python `toc_content.split("\n")`: split on every newline, keeping empty
pieces (`"".split("\n") == [""]`). -/
def splitLines : List Char → List (List Char)
  | [] => [[]]
  | c :: rest =>
    if c = '\n' then [] :: splitLines rest
    else
      match splitLines rest with
      | [] => [[c]]
      | l :: ls => (c :: l) :: ls

/-- The contribution of one line of the table of contents: the loop body of
`parse_toc` — strip the line, skip it when blank or a category header,
otherwise search for the link pattern and build the metadata entry
(the `title`, `route` and `description` groups are each `.strip()`-ed;
a missing description group becomes `""`). -/
def lineEntry (line : List Char) : Option (String × TocMeta) :=
  let l := pyStripL line
  if l.isEmpty then none
  else if isCategoryHeader l then none
  else
    match findLink l with
    | none => none
    | some (title, route, g3) =>
      some ((pyStripL route).asString,
        { title := (pyStripL title).asString,
          description := match g3 with
            | none => ""
            | some d => (pyStripL d).asString })

/-- Python `dict` assignment `d[k] = v`: overwrite in place when the key is
present (keeping its insertion position), otherwise append. -/
def dictInsert (d : List (String × TocMeta)) (k : String) (v : TocMeta) :
    List (String × TocMeta) :=
  if d.any (fun p => p.1 == k) then
    d.map (fun p => if p.1 == k then (k, v) else p)
  else d ++ [(k, v)]

/-- `parse_toc`: split on newlines and fold every line's contribution into
the routes dictionary. The result models `routes_metadata`: an
insertion-ordered association list from route to metadata. -/
def parse_toc (toc_content : String) : List (String × TocMeta) :=
  (splitLines toc_content.toList).foldl
    (fun d line =>
      match lineEntry line with
      | none => d
      | some (r, m) => dictInsert d r m) []

/-- `routes_metadata.get(route)`: value lookup in the parsed mapping. -/
def lookupToc (d : List (String × TocMeta)) (r : String) : Option TocMeta :=
  (d.find? (fun p => p.1 == r)).map Prod.snd

/-! ### The crawl orchestrator (`scraper.py`, `fetch_document` / `scrape_all_docs`)

`request_page` performs one HTTP GET and returns the page text, or `None`
on any failure (network error or non-2xx status). The network is embedded
as a function `fetch : String → Option String` from URL to outcome;
`some t` is a 2xx response whose body decoded to `t` (possibly `""`),
`none` is a failed request. -/

def BETTER_AUTH_BASE : String := "https://www.better-auth.com"

structure DocRecord where
  route : String
  description : String
  title : String
  content : String
deriving DecidableEq, Repr

/-- `fetch_document`: fetch `BETTER_AUTH_BASE + route`; on failure return
`None`, otherwise the document dictionary with the fetched text as
`content` (`metadata.get("description", "")` / `metadata.get("title", "")`
always find both keys, since `parse_toc` stores both). -/
def fetch_document (fetch : String → Option String) (route : String)
    (metadata : TocMeta) : Option DocRecord :=
  match fetch (BETTER_AUTH_BASE ++ route) with
  | none => none
  | some content =>
    some { route := route, description := metadata.description,
           title := metadata.title, content := content }

structure ScrapeStats where
  total_routes : Nat
  successful : Nat
  failed : Nat
  upserted_docs : Nat
deriving DecidableEq, Repr

/-- The outcome of a crawl: the batch of successfully fetched documents
handed to `FeatureStore.upsert_docs`, plus the returned statistics. -/
structure ScrapeOutcome where
  docs : List DocRecord
  stats : ScrapeStats
deriving DecidableEq, Repr

/-- `routes_metadata[route]`: dictionary lookup. Every route passed to
`fetch_document` is a key of `routes_metadata`, so the default branch is
unreachable in `scrape_all_docs`. -/
def lookupMeta (rm : List (String × TocMeta)) (r : String) : TocMeta :=
  match rm.find? (fun p => p.1 == r) with
  | some p => p.2
  | none => { title := "", description := "" }

/-- `scrape_all_docs`: fetch the table of contents (`if not toc_content:`
treats both `None` and the empty string as failure and raises), parse it,
fetch every discovered route (the semaphore bounds concurrency but
`tqdm.gather` preserves input order, so the result list is the in-order
map of `fetch_document` over the routes), partition into successes and
failures, and hand the successes to `FeatureStore.upsert_docs`, whose
return value is the length of the batch it was given. -/
def scrape_all_docs (fetch : String → Option String) : Except String ScrapeOutcome :=
  match fetch (BETTER_AUTH_BASE ++ "/llms.txt") with
  | none => .error "Failed to fetch table of contents"
  | some toc_content =>
    if toc_content = "" then .error "Failed to fetch table of contents"
    else
      let routes_metadata := parse_toc toc_content
      let routes := routes_metadata.map Prod.fst
      let results := routes.map
        (fun route => fetch_document fetch route (lookupMeta routes_metadata route))
      let docs := results.filterMap id
      .ok { docs := docs,
            stats := { total_routes := routes.length,
                       successful := (results.filter (fun r => r.isSome)).length,
                       failed := (results.filter (fun r => r.isNone)).length,
                       upserted_docs := docs.length } }

namespace FeatureStore

/-! ### The document store (`feature_store.py`, class `FeatureStore`)

The ChromaDB collection is modelled as a list of stored records. The
embedding vectors are produced by the external `SentenceTransformer`
model and play no role in record identity, deletion or counting, so they
are not carried in the record. -/

structure StoredRec where
  id : String
  document : String
  route : String
  description : String
  timestamp : String
deriving DecidableEq, Repr

abbrev Collection := List StoredRec

/-- `collection.delete(where={"route": route})`: remove every record whose
metadata `route` equals the given value. (Chroma raises on an empty result
set in some versions; `upsert_docs` swallows that exception, and either
way the surviving records are exactly those whose route differs.) -/
def collDelete (c : Collection) (route : String) : Collection :=
  c.filter (fun r => r.route != route)

/-- `collection.add(ids=..., ...)`: ChromaDB validates that the ids of the
batch are unique and do not collide with ids already stored; an invalid
batch raises without mutating the collection. -/
def collAdd (c : Collection) (new : List StoredRec) : Collection :=
  if (new.map (fun r => r.id)).Nodup ∧ ∀ r ∈ new, ∀ s ∈ c, s.id ≠ r.id then
    c ++ new
  else c

/-- `upsert_docs`: build one stored record per input document
(`id = route`, `document = content`, metadata `{route, description,
timestamp}` with one shared timestamp), then delete the prior records of
every distinct input route (`list(set(...))`), then bulk-add the batch
(the `if all_docs:` guard skips the add for an empty batch, which is also
a no-op here). Returns the number of records written, `len(all_docs)`. -/
def upsert_docs (c : Collection) (docs : List DocRecord) (timestamp : String) :
    Collection × Nat :=
  let newRecs := docs.map (fun d =>
    { id := d.route, document := d.content, route := d.route,
      description := d.description, timestamp := timestamp : StoredRec })
  let routes := (docs.map (fun d => d.route)).dedup
  let afterDelete := routes.foldl collDelete c
  (collAdd afterDelete newRecs, newRecs.length)

/-- The store's well-formedness invariant: every record's id is its
metadata route (all writes go through `upsert_docs`, which sets both to
the document's route), and no two records share an id. -/
def WellFormed (c : Collection) : Prop :=
  (∀ r ∈ c, r.id = r.route) ∧ (c.map (fun r => r.id)).Nodup

/-- `collection.query(...)`: the nearest-neighbour query of the external
vector index returns at most `n_results` stored records, pre-filtered by
an exact route match when a `where` clause is given. The similarity
ranking comes from the external embedding model and is modelled as
collection order; the properties proved below depend only on which
records exist, not on their order. -/
def queryCollection (c : Collection) (nResults : Nat) (route : Option String) :
    List StoredRec :=
  let base : List StoredRec :=
    match route with
    | some r => c.filter (fun x => x.route == r)
    | none => c
  base.take nResults

/-- `f"No relevant context found for query '{query}'."` -/
def noContextMsg (query : String) : String :=
  "No relevant context found for query \x27" ++ query ++ "\x27."

/-- `search`: query the collection; when no ids come back
(`if not results["ids"] or not results["ids"][0]:`) return the
no-relevant-context message, otherwise format each hit as
`[route]\n\n<document>` and join with `\n\n---\n\n`. -/
def search (c : Collection) (query : String) (nResults : Nat)
    (route : Option String) : String :=
  let results := queryCollection c nResults route
  if results.isEmpty then noContextMsg query
  else
    String.intercalate "\n\n---\n\n"
      (results.map (fun r => "[" ++ r.route ++ "]\n\n" ++ r.document))

end FeatureStore

namespace McpServer

/-! ### The MCP tools (`mcp-server.py` and `main.py`)

Both files define the same two tools with identical bodies;
`make_better_auth_request` has the same contract as `request_page`
(text on 2xx, `None` on failure) and is embedded as the same
`fetch : String → Option String` parameter. -/

/-- Python truthiness test `if not data:` on a `str | None` value: true for
`None` and for the empty string. -/
def pyFalsy : Option String → Bool
  | none => true
  | some s => s == ""

/-- `get_table_of_contents`: fetch the fixed table-of-contents URL; return
the sentinel when the outcome is falsy, the fetched text otherwise. -/
def get_table_of_contents (fetch : String → Option String) : String :=
  let data := fetch (BETTER_AUTH_BASE ++ "/llms.txt")
  if pyFalsy data then "Unable to fetch table of contents." else data.getD ""

/-- `read_page`: fetch `BETTER_AUTH_BASE + page_route`; same contract with
its own sentinel. -/
def read_page (fetch : String → Option String) (page_route : String) : String :=
  let data := fetch (BETTER_AUTH_BASE ++ page_route)
  if pyFalsy data then "Unable to fetch page." else data.getD ""

end McpServer

namespace Chatbot

/-! ### JSON-Schema translation (`chatbot.py`, `json_schema_to_gemini_schema`)

JSON values are embedded as the inductive `Json`; a Python `dict` is an
association list with unique keys in insertion order. The translation is
fallible (`Option`): Python raises on a non-string `type` value
(`.upper()`), a non-dict `properties` value (`.items()`), or recursion
into a non-dict schema, and those exceptions are modelled as `none`. -/

inductive Json where
  | null
  | bool (b : Bool)
  | num (n : Int)
  | str (s : String)
  | arr (elems : List Json)
  | obj (fields : List (String × Json))
deriving Repr

mutual

def jsonSize : Json → Nat
  | .null => 1
  | .bool _ => 1
  | .num _ => 1
  | .str _ => 1
  | .arr es => 1 + jsonSizeList es
  | .obj kvs => 1 + jsonSizeFields kvs

def jsonSizeList : List Json → Nat
  | [] => 0
  | j :: rest => 1 + jsonSize j + jsonSizeList rest

def jsonSizeFields : List (String × Json) → Nat
  | [] => 0
  | (_, v) :: rest => 1 + jsonSize v + jsonSizeFields rest

end

/-- `k in d` / `d[k]` on a Python dict (keys are unique, so the first hit
is the only hit). -/
def lookupJ : List (String × Json) → String → Option Json
  | [], _ => none
  | (k, v) :: rest, key => if k == key then some v else lookupJ rest key

/-- `for prop_name, prop_schema in properties.items(): out[prop_name] = f(prop_schema)`,
propagating a raised exception (`none`) from any element. -/
def mapFieldsWith (f : Json → Option Json) :
    List (String × Json) → Option (List (String × Json))
  | [] => some []
  | (k, v) :: rest => do
    let v2 ← f v
    let rest2 ← mapFieldsWith f rest
    pure ((k, v2) :: rest2)

/-- `if "type" in json_schema: schema["type"] = json_schema["type"].upper()`;
Python raises (`none`) when the value is not a string. -/
def typeField (kvs : List (String × Json)) : Option (List (String × Json)) :=
  match lookupJ kvs "type" with
  | none => some []
  | some (Json.str s) => some [("type", Json.str (pyUpper s))]
  | some _ => none

/-- `if "description" in json_schema: schema["description"] = json_schema["description"]` -/
def descField (kvs : List (String × Json)) : List (String × Json) :=
  match lookupJ kvs "description" with
  | none => []
  | some v => [("description", v)]

/-- `if "properties" in json_schema:` — translate every property value with
the supplied recursive translation; Python raises (`none`) when the value
is not a dict. -/
def propsField (f : Json → Option Json) (kvs : List (String × Json)) :
    Option (List (String × Json)) :=
  match lookupJ kvs "properties" with
  | none => some []
  | some (Json.obj ps) => do
    let qs ← mapFieldsWith f ps
    pure [("properties", Json.obj qs)]
  | some _ => none

/-- `if "required" in json_schema: schema["required"] = json_schema["required"]` -/
def reqField (kvs : List (String × Json)) : List (String × Json) :=
  match lookupJ kvs "required" with
  | none => []
  | some v => [("required", v)]

/-- `if "items" in json_schema: schema["items"] = self.json_schema_to_gemini_schema(json_schema["items"])` -/
def itemsField (f : Json → Option Json) (kvs : List (String × Json)) :
    Option (List (String × Json)) :=
  match lookupJ kvs "items" with
  | none => some []
  | some v => do
    let v2 ← f v
    pure [("items", v2)]

/-- One level of `json_schema_to_gemini_schema`, with an explicit recursion
bound so the function is structurally recursive: every recursive call
descends into a strict subterm of the input, so a bound of `jsonSize` of
the input never runs out (the `0` branch is unreachable from
`json_schema_to_gemini_schema` below). The five supported fields are
emitted in the source's fixed order — `type` (uppercased), `description`
(copied), `properties` (each value translated recursively), `required`
(copied), `items` (translated recursively); every other key of the input
is never read, hence silently dropped. A non-dict input raises in Python
(or degenerates to the empty schema for `str` inputs, which no schema-like
input reaches) and is modelled as `none`. -/
def j2gF : Nat → Json → Option Json
  | 0 => fun _ => none
  | fuel + 1 => fun j =>
    match j with
    | Json.obj kvs => do
      let typeF ← typeField kvs
      let descF := descField kvs
      let propsF ← propsField (j2gF fuel) kvs
      let reqF := reqField kvs
      let itemsF ← itemsField (j2gF fuel) kvs
      pure (Json.obj (typeF ++ descF ++ propsF ++ reqF ++ itemsF))
    | _ => none

def json_schema_to_gemini_schema (j : Json) : Option Json :=
  j2gF (jsonSize j) j

/-- Top-level key lookup in a JSON object. -/
def lookupTop (j : Json) (k : String) : Option Json :=
  match j with
  | Json.obj kvs => lookupJ kvs k
  | _ => none

def geminiKeys : List String := ["type", "description", "properties", "required", "items"]

/-- A schema tree all of whose object keys — recursing through `properties`
values and `items`, the only places the translation recurses — belong to
the five Gemini-supported keys. -/
inductive OnlyGeminiKeys : Json → Prop where
  | mk (kvs : List (String × Json))
      (hkeys : ∀ p ∈ kvs, p.1 ∈ geminiKeys)
      (hprops : ∀ ps, lookupJ kvs "properties" = some (Json.obj ps) →
        ∀ q ∈ ps, OnlyGeminiKeys q.2)
      (hitems : ∀ v, lookupJ kvs "items" = some v → OnlyGeminiKeys v) :
      OnlyGeminiKeys (Json.obj kvs)

/-! ### The bounded tool-calling loop (`chatbot.py`, `Chatbot.render`)

The LLM is embedded as a function `gen` from the accumulated contents to
its reply (`generate_content`); the MCP tool call as a function
`callTool` (`call_mcp_tool`). A reply's
`candidates[0].content.parts[0].function_call` is `Option FunctionCall`;
its `text` is the free-text answer. -/

structure FunctionCall where
  name : String
  args : List (String × String)
deriving DecidableEq, Repr

structure Reply where
  function_call : Option FunctionCall
  text : String
deriving DecidableEq, Repr

inductive Part where
  | text (s : String)
  | functionCall (fc : FunctionCall)
  | functionResponse (name result : String)
deriving DecidableEq, Repr

structure Content where
  role : String
  parts : List Part
deriving DecidableEq, Repr

def max_iterations : Nat := 5

/-- The `while response...function_call and iteration < max_iterations:`
loop: while the latest reply requests a function call and fewer than
`max_iterations` round trips have happened, execute the tool, append the
function-call and function-response contents, and ask the model again.
Returns the final iteration count (the number of tool-call round trips
issued) together with the reply the loop exits with. -/
def toolLoop (gen : List Content → Reply) (callTool : FunctionCall → String)
    (contents : List Content) (response : Reply) (iteration : Nat) : Nat × Reply :=
  match response.function_call with
  | none => (iteration, response)
  | some fc =>
    if iteration < max_iterations then
      let tool_result := callTool fc
      let contents2 := contents ++
        [{ role := "model", parts := [Part.functionCall fc] },
         { role := "user", parts := [Part.functionResponse fc.name tool_result] }]
      toolLoop gen callTool contents2 (gen contents2) (iteration + 1)
    else (iteration, response)
termination_by max_iterations - iteration

end Chatbot

namespace Crawl

/-! ### The bounded fan-out (`scraper.py`, `scrape_all_docs`)

`asyncio.Semaphore(10)` with one task per route, each running
`async with semaphore: await fetch_document(...)`, is embedded as a
transition system. A task is *waiting* until it acquires the semaphore,
*running* (its fetch is in flight) while it holds it, and *finished* once
it has released it; `sem` is the semaphore's counter. `acquire` fires only
when the counter is positive — a waiting task blocks otherwise — and
`release` returns the permit. -/

def concurrency_limit : Nat := 10

structure SemState where
  waiting : Nat
  running : Nat
  finished : Nat
  sem : Nat
deriving DecidableEq, Repr

inductive Step : SemState → SemState → Prop where
  | acquire (w r d s : Nat) : Step ⟨w + 1, r, d, s + 1⟩ ⟨w, r + 1, d, s⟩
  | release (w r d s : Nat) : Step ⟨w, r + 1, d, s⟩ ⟨w, r, d + 1, s + 1⟩

/-- The crawl's initial state for `n` discovered routes: `n` tasks created,
none started, the semaphore at its full count of 10. -/
def initState (n : Nat) : SemState :=
  ⟨n, 0, 0, concurrency_limit⟩

/-- States the crawl of `n` routes can actually be in. -/
def Reachable (n : Nat) (st : SemState) : Prop :=
  Relation.ReflTransGen Step (initState n) st

end Crawl

/-! ### Concrete fetch environments used in counterexamples and witnesses -/

/-- A server that answers every request with HTTP 200 and an empty body. -/
def fetchEmptyBody : String → Option String := fun _ => some ""

/-- A server whose table of contents lists one route and which then answers
that route's page request with an empty body. -/
def fetchEmptyPage : String → Option String := fun url =>
  if url = BETTER_AUTH_BASE ++ "/llms.txt" then some "[T](/llms.txtX)" else some ""

/-- A server whose table of contents lists two routes; the first page fetch
succeeds with a body, the second fails. -/
def fetchMixed : String → Option String := fun url =>
  if url = BETTER_AUTH_BASE ++ "/llms.txt" then
    some "[A](/llms.txt/a.md): first\n[B](/llms.txt/b.md): second"
  else if url = BETTER_AUTH_BASE ++ "/llms.txt/a.md" then some "body a"
  else none

/-! ## Theorems -/

/-- Claim C10: a fetch that succeeds at the HTTP level but returns an
empty-string body is indistinguishable from a fetch failure at every
caller, because callers test the result for falsiness rather than `None`:
against a server that answers every request with HTTP 200 and an empty
body, `get_table_of_contents` and `read_page` return their
"Unable to fetch ..." sentinels instead of the (empty) page text, and
`scrape_all_docs` raises "Failed to fetch table of contents", aborting the
whole crawl, even though no network error or non-2xx status occurred. -/
theorem c10_empty_body_treated_as_failure :
    McpServer.get_table_of_contents fetchEmptyBody = "Unable to fetch table of contents." ∧
    (∀ route, McpServer.read_page fetchEmptyBody route = "Unable to fetch page.") ∧
    scrape_all_docs fetchEmptyBody = Except.error "Failed to fetch table of contents" :=
  ⟨rfl, fun _ => rfl, rfl⟩

/-- Claim C4 counterexample: the claim says each tool returns the fetched
text for every fetch outcome, with the sentinel reserved for fetch
failures. On the outcome "success with empty body" the fetched text is
`""`, yet `get_table_of_contents` returns its sentinel — which is not the
fetched text — so the claim as stated is false. -/
theorem c4_counterexample :
    McpServer.get_table_of_contents fetchEmptyBody = "Unable to fetch table of contents." ∧
    "Unable to fetch table of contents." ≠ "" :=
  ⟨rfl, by decide⟩

/-- Claim C4 (amended): for every fetch outcome, `get_table_of_contents`
and `read_page` return the fetched text whenever that text is non-empty;
on a fetch failure — or a fetch that succeeded with an empty body — each
returns its fixed "Unable to fetch ..." sentinel string. Both functions
are total on every outcome, so no exception reaches the transport
layer. -/
theorem c4_tool_text_or_sentinel (fetch : String → Option String) (page_route : String) :
    (fetch (BETTER_AUTH_BASE ++ "/llms.txt") = none ∨
        fetch (BETTER_AUTH_BASE ++ "/llms.txt") = some "" →
      McpServer.get_table_of_contents fetch = "Unable to fetch table of contents.") ∧
    (∀ t, t ≠ "" → fetch (BETTER_AUTH_BASE ++ "/llms.txt") = some t →
      McpServer.get_table_of_contents fetch = t) ∧
    (fetch (BETTER_AUTH_BASE ++ page_route) = none ∨
        fetch (BETTER_AUTH_BASE ++ page_route) = some "" →
      McpServer.read_page fetch page_route = "Unable to fetch page.") ∧
    (∀ t, t ≠ "" → fetch (BETTER_AUTH_BASE ++ page_route) = some t →
      McpServer.read_page fetch page_route = t) := by
  refine ⟨fun h => ?_, fun t ht hf => ?_, fun h => ?_, fun t ht hf => ?_⟩
  · rcases h with h | h <;>
      simp [McpServer.get_table_of_contents, McpServer.pyFalsy, h]
  · simp [McpServer.get_table_of_contents, McpServer.pyFalsy, hf, ht]
  · rcases h with h | h <;>
      simp [McpServer.read_page, McpServer.pyFalsy, h]
  · simp [McpServer.read_page, McpServer.pyFalsy, hf, ht]

theorem c4_tool_text_or_sentinel_witness :
    McpServer.get_table_of_contents (fun _ => some "# TOC") = "# TOC" :=
  (c4_tool_text_or_sentinel (fun _ => some "# TOC") "/x").2.1 "# TOC" (by decide) rfl

/-- Claim C8: for every query string, `search` on an empty collection — and
more generally whenever the (optionally route-filtered) collection yields
no matches — returns the "No relevant context found" message. The function
is total, so the empty case raises no exception, and the returned message
is never the empty string. -/
theorem c8_search_no_results (query : String) (nResults : Nat) (route : Option String)
    (c : FeatureStore.Collection)
    (hempty : FeatureStore.queryCollection c nResults route = []) :
    FeatureStore.search [] query nResults route = FeatureStore.noContextMsg query ∧
    FeatureStore.search c query nResults route = FeatureStore.noContextMsg query ∧
    FeatureStore.noContextMsg query ≠ "" := by
  refine ⟨?_, ?_, ?_⟩
  · cases route <;>
      simp [FeatureStore.search, FeatureStore.queryCollection]
  · simp [FeatureStore.search, hempty]
  · intro h
    have hlen := congrArg String.length h
    rw [FeatureStore.noContextMsg, String.length_append, String.length_append] at hlen
    have h1 : ("No relevant context found for query \x27" : String).length = 37 := rfl
    have h2 : ("\x27." : String).length = 2 := rfl
    have h3 : ("" : String).length = 0 := rfl
    omega

theorem c8_search_no_results_witness :
    FeatureStore.search [] "better auth" 5 none =
      FeatureStore.noContextMsg "better auth" :=
  (c8_search_no_results "better auth" 5 none [] rfl).1

/-- Auxiliary invariant of the crawl's admission gate: in every reachable
state, the number of in-flight fetches plus the semaphore's remaining
count is exactly the configured limit. -/
theorem crawl_running_add_sem (n : Nat) (st : Crawl.SemState)
    (h : Crawl.Reachable n st) :
    st.running + st.sem = Crawl.concurrency_limit := by
  induction h with
  | refl => rfl
  | tail _ step ih =>
    cases step with
    | acquire w r d s => simp_all [Crawl.concurrency_limit]; omega
    | release w r d s => simp_all [Crawl.concurrency_limit]; omega

/-- Claim C7: at every point in a crawl — every state reachable from the
start of the fan-out, for any number `n` of discovered routes, including
`n > 10` — the number of simultaneously in-flight page fetches never
exceeds the concurrency ceiling of 10, enforced by the counting-semaphore
admission gate (`acquire` only fires while the semaphore's count is
positive). -/
theorem c7_concurrency_ceiling (n : Nat) (st : Crawl.SemState)
    (h : Crawl.Reachable n st) :
    st.running ≤ 10 := by
  have hinv := crawl_running_add_sem n st h
  have hl : Crawl.concurrency_limit = 10 := rfl
  omega

/-- Witness for C7: after one `acquire` step of a crawl with 11 routes, one
fetch is in flight — within the ceiling. -/
theorem c7_concurrency_ceiling_witness :
    (Crawl.SemState.mk 10 1 0 9).running ≤ 10 :=
  c7_concurrency_ceiling 11 ⟨10, 1, 0, 9⟩
    (Relation.ReflTransGen.single (Crawl.Step.acquire 10 0 0 9))

/-- Auxiliary bound for the tool-calling loop, by induction on the
remaining iteration budget: starting from any iteration count within the
ceiling, the loop's final count stays within the ceiling and its final
reply is either the reply it started from or one the model produced. -/
theorem toolLoop_bounded (gen : List Chatbot.Content → Chatbot.Reply)
    (callTool : Chatbot.FunctionCall → String) (fuel : Nat) :
    ∀ (contents : List Chatbot.Content) (response : Chatbot.Reply) (iteration : Nat),
      Chatbot.max_iterations - iteration ≤ fuel →
      iteration ≤ Chatbot.max_iterations →
      (Chatbot.toolLoop gen callTool contents response iteration).1 ≤
          Chatbot.max_iterations ∧
      ((Chatbot.toolLoop gen callTool contents response iteration).2 = response ∨
        ∃ cs, (Chatbot.toolLoop gen callTool contents response iteration).2 = gen cs) := by
  induction fuel with
  | zero =>
    intro contents response iteration hfuel hit
    rw [Chatbot.toolLoop]
    split
    · exact ⟨hit, Or.inl rfl⟩
    · rw [if_neg (by omega : ¬ iteration < Chatbot.max_iterations)]
      exact ⟨hit, Or.inl rfl⟩
  | succ m ih =>
    intro contents response iteration hfuel hit
    rw [Chatbot.toolLoop]
    split
    · exact ⟨hit, Or.inl rfl⟩
    · rename_i fc hfc
      by_cases hlt : iteration < Chatbot.max_iterations
      · rw [if_pos hlt]
        have hrec := ih
          (contents ++
            [{ role := "model", parts := [Chatbot.Part.functionCall fc] },
             { role := "user",
               parts := [Chatbot.Part.functionResponse fc.name (callTool fc)] }])
          (gen (contents ++
            [{ role := "model", parts := [Chatbot.Part.functionCall fc] },
             { role := "user",
               parts := [Chatbot.Part.functionResponse fc.name (callTool fc)] }]))
          (iteration + 1) (by omega) (by omega)
        refine ⟨hrec.1, ?_⟩
        rcases hrec.2 with h | ⟨cs, hcs⟩
        · exact Or.inr ⟨_, h⟩
        · exact Or.inr ⟨cs, hcs⟩
      · rw [if_neg hlt]
        exact ⟨hit, Or.inl rfl⟩

/-- Claim C6: for every model behaviour `gen` (even one that requests a
function call on every reply) and every tool implementation, the loop for
one user turn performs at most 5 tool-call round trips — the returned
iteration count is the number of `call_mcp_tool` invocations — and it
exits by returning a reply (the initial one, or the model's latest),
rather than raising an error. -/
theorem c6_tool_loop_bounded (gen : List Chatbot.Content → Chatbot.Reply)
    (callTool : Chatbot.FunctionCall → String)
    (contents : List Chatbot.Content) (response : Chatbot.Reply) :
    (Chatbot.toolLoop gen callTool contents response 0).1 ≤ 5 ∧
    ((Chatbot.toolLoop gen callTool contents response 0).2 = response ∨
      ∃ cs, (Chatbot.toolLoop gen callTool contents response 0).2 = gen cs) :=
  toolLoop_bounded gen callTool Chatbot.max_iterations contents response 0
    (by omega) (by omega)

/-- Claim C2 counterexample: the line `# [T](/llms.txtX)` begins with a `#`
character (and is not blank), yet it contributes an entry to the returned
mapping — `parse_toc` only skips lines matching `^###\s+`, and the link
pattern is searched anywhere in the remaining lines — so "a line beginning
with one or more `#` characters contributes no entry" is false. -/
theorem c2_counterexample :
    parse_toc "# [T](/llms.txtX)" =
      [("/llms.txtX", { title := "T", description := "" })] ∧
    parse_toc "# [T](/llms.txtX)" ≠ [] := by
  refine ⟨by decide, by decide⟩

/-- Claim C2 (amended): a line that (after stripping) is empty, or is a
category header — exactly three `#` followed by a whitespace character —
contributes no entry to the returned mapping. Lines beginning with another
number of `#` characters are not skipped, and do contribute an entry when
they contain a well-formed link (see the counterexample). -/
theorem c2_blank_and_category_lines_skipped (line : List Char)
    (h : pyStripL line = [] ∨ isCategoryHeader (pyStripL line) = true) :
    lineEntry line = none := by
  rw [lineEntry]
  rcases h with h | h
  · simp [h]
  · simp [h]

/-- Witness for the amended C2: the category-header line of the spec's own
sample contributes nothing. -/
theorem c2_blank_and_category_lines_skipped_witness :
    lineEntry "### Category".toList = none :=
  c2_blank_and_category_lines_skipped "### Category".toList (Or.inr (by decide))

/-- Claim C1 counterexample: against a server whose table of contents lists
one route and whose page request for that route succeeds with an empty
body, the crawl succeeds and the batch handed to the Document Store
contains a record whose content is the empty string — so "a record with
empty content is never stored" is false (no fetch failed here; the page
fetch returned HTTP 200 with an empty body). -/
theorem c1_counterexample :
    (scrape_all_docs fetchEmptyPage).toOption.map (fun o => o.docs) =
      some [{ route := "/llms.txtX", description := "", title := "T", content := "" }] := by
  decide

/-- Claim C1 (amended): every record in the batch handed to the Document
Store comes from a route whose page fetch succeeded, and its content is
exactly the fetched page text — so for every route whose page fetch failed
the record is dropped (never stored). However the fetched text, and hence
a stored record's content, may be the empty string when the page fetch
succeeded with an empty body. -/
theorem c1_stored_records_match_fetch (fetch : String → Option String)
    (o : ScrapeOutcome) (hok : scrape_all_docs fetch = Except.ok o) :
    ∀ d ∈ o.docs, fetch (BETTER_AUTH_BASE ++ d.route) = some d.content := by
  intro d hd
  rw [scrape_all_docs] at hok
  split at hok
  · exact Except.noConfusion hok
  · split at hok
    · exact Except.noConfusion hok
    · injection hok with ho
      subst ho
      obtain ⟨a, ha, haeq⟩ := List.mem_filterMap.mp hd
      obtain ⟨route, hroute, hfd⟩ := List.mem_map.mp ha
      simp only [id_eq] at haeq
      rw [haeq] at hfd
      rw [fetch_document] at hfd
      match hf : fetch (BETTER_AUTH_BASE ++ route) with
      | none =>
        rw [hf] at hfd
        exact Option.noConfusion hfd
      | some content =>
        rw [hf] at hfd
        injection hfd with hrec
        subst hrec
        exact hf

/-- Witness for the amended C1: in the mixed crawl (`fetchMixed`), the one
stored record's content is the text the server returned for its route. -/
theorem c1_stored_records_match_fetch_witness :
    fetchMixed (BETTER_AUTH_BASE ++ "/llms.txt/a.md") = some "body a" :=
  c1_stored_records_match_fetch fetchMixed
    { docs := [{ route := "/llms.txt/a.md", description := "first",
                 title := "A", content := "body a" }],
      stats := { total_routes := 2, successful := 1, failed := 1,
                 upserted_docs := 1 } }
    rfl
    { route := "/llms.txt/a.md", description := "first",
      title := "A", content := "body a" }
    (by decide)

/-- A list of records with pairwise-distinct ids has at most one record
with any given id. -/
theorem nodup_filter_id_le_one (c : List FeatureStore.StoredRec) (x : String)
    (h : (c.map (fun r => r.id)).Nodup) :
    (c.filter (fun r => r.id == x)).length ≤ 1 := by
  induction c with
  | nil => simp
  | cons r c ih =>
    simp only [List.map_cons, List.nodup_cons] at h
    by_cases hx : r.id = x
    · have hfc : c.filter (fun s => s.id == x) = [] := by
        rw [List.filter_eq_nil_iff]
        intro s hs
        simp only [beq_iff_eq]
        intro hsx
        apply h.1
        rw [hx, ← hsx]
        exact List.mem_map_of_mem (fun t => t.id) hs
      simp [List.filter_cons, hx, hfc]
    · have hr := ih h.2
      simp only [List.filter_cons]
      rw [if_neg (by simpa using hx)]
      exact hr

/-- Membership after the delete pass of `upsert_docs`: a record survives
`routes.foldl collDelete c` exactly when it was in `c` and its route is
not among the deleted routes. -/
theorem mem_foldl_collDelete (routes : List String) :
    ∀ (c : FeatureStore.Collection) (r : FeatureStore.StoredRec),
      r ∈ routes.foldl FeatureStore.collDelete c ↔ r ∈ c ∧ r.route ∉ routes := by
  induction routes with
  | nil => simp
  | cons rt rest ih =>
    intro c r
    simp only [List.foldl_cons]
    rw [ih]
    simp only [FeatureStore.collDelete, List.mem_filter, List.mem_cons]
    constructor
    · rintro ⟨⟨hc, hne⟩, hrest⟩
      refine ⟨hc, ?_⟩
      simp only [bne_iff_ne, ne_eq] at hne
      tauto
    · rintro ⟨hc, hnot⟩
      refine ⟨⟨hc, ?_⟩, fun hm => hnot (Or.inr hm)⟩
      simp only [bne_iff_ne, ne_eq]
      exact fun hq => hnot (Or.inl hq)

/-- The delete pass produces a sublist of the prior collection. -/
theorem foldl_collDelete_sublist (routes : List String) :
    ∀ (c : FeatureStore.Collection),
      List.Sublist (routes.foldl FeatureStore.collDelete c) c := by
  induction routes with
  | nil => intro c; simp
  | cons rt rest ih =>
    intro c
    simp only [List.foldl_cons]
    exact (ih (FeatureStore.collDelete c rt)).trans (List.filter_sublist c)

/-- `upsert_docs` preserves the store's well-formedness: the delete pass
leaves a well-formed sublist, and the add either appends a batch whose ids
are fresh and pairwise distinct (ChromaDB's validation) or leaves the
collection as the delete pass produced it. -/
theorem upsert_wf (c : FeatureStore.Collection) (docs : List DocRecord)
    (ts : String) (hwf : FeatureStore.WellFormed c) :
    FeatureStore.WellFormed (FeatureStore.upsert_docs c docs ts).1 := by
  have hafter_wf : FeatureStore.WellFormed
      (((docs.map (fun d => d.route)).dedup).foldl FeatureStore.collDelete c) := by
    constructor
    · intro r hr
      exact hwf.1 r ((mem_foldl_collDelete _ c r).mp hr).1
    · exact ((foldl_collDelete_sublist _ c).map (fun r => r.id)).nodup hwf.2
  simp only [FeatureStore.upsert_docs]
  rw [FeatureStore.collAdd]
  split
  · rename_i hvalid
    constructor
    · intro r hr
      rcases List.mem_append.mp hr with h | h
      · exact hafter_wf.1 r h
      · obtain ⟨d, _, rfl⟩ := List.mem_map.mp h
        rfl
    · rw [List.map_append, List.nodup_append]
      refine ⟨hafter_wf.2, hvalid.1, ?_⟩
      intro a ha hb
      obtain ⟨s, hs, rfl⟩ := List.mem_map.mp ha
      obtain ⟨t, ht, htid⟩ := List.mem_map.mp hb
      exact hvalid.2 t ht s hs htid.symm
  · exact hafter_wf

/-- A single-document upsert on a well-formed collection: delete the
document's route, then append its fresh record (the added id cannot
collide, because every surviving record's id is its route and that route
was just deleted). -/
theorem upsert_single (c : FeatureStore.Collection) (d : DocRecord) (ts : String)
    (hwf : FeatureStore.WellFormed c) :
    (FeatureStore.upsert_docs c [d] ts).1 =
      FeatureStore.collDelete c d.route ++
        [{ id := d.route, document := d.content, route := d.route,
           description := d.description, timestamp := ts }] := by
  simp only [FeatureStore.upsert_docs, List.map_cons, List.map_nil]
  rw [List.dedup_cons_of_not_mem (by simp), List.dedup_nil, List.foldl_cons,
    List.foldl_nil, FeatureStore.collAdd]
  rw [if_pos ?hvalid]
  case hvalid =>
    refine ⟨by simp, ?_⟩
    intro r hr s hs
    simp only [List.mem_singleton] at hr
    subst hr
    have hmem := List.mem_filter.mp hs
    have hne : s.route ≠ d.route := by simpa using hmem.2
    rw [hwf.1 s hmem.1]
    exact hne

/-- After deleting a route, no surviving record of a well-formed collection
carries that route as its id. -/
theorem filter_id_collDelete_eq_nil (c : FeatureStore.Collection) (route : String)
    (h : ∀ r ∈ c, r.id = r.route) :
    (FeatureStore.collDelete c route).filter (fun r => r.id == route) = [] := by
  rw [List.filter_eq_nil_iff]
  intro s hs
  have hmem := List.mem_filter.mp hs
  have hne : s.route ≠ route := by simpa using hmem.2
  simp only [beq_iff_eq]
  rw [h s hmem.1]
  exact hne

/-- Claim C3: `upsert_docs` preserves the store's well-formedness — in
particular the at-most-one-record-per-route invariant: after any upsert on
a well-formed collection, at most one stored record carries any given
id/route. Moreover, upserting the same route twice in two successive calls
with different content leaves exactly one record for that route, holding
the content, description and timestamp of the second call. -/
theorem c3_upsert_route_invariant (c : FeatureStore.Collection)
    (docs : List DocRecord) (ts : String) (hwf : FeatureStore.WellFormed c) :
    FeatureStore.WellFormed (FeatureStore.upsert_docs c docs ts).1 ∧
    (∀ route,
      ((FeatureStore.upsert_docs c docs ts).1.filter
        (fun r => r.id == route)).length ≤ 1) ∧
    (∀ (d1 d2 : DocRecord) (ts1 ts2 : String), d1.route = d2.route →
      ((FeatureStore.upsert_docs
          (FeatureStore.upsert_docs c [d1] ts1).1 [d2] ts2).1.filter
        (fun r => r.id == d2.route)) =
      [{ id := d2.route, document := d2.content, route := d2.route,
         description := d2.description, timestamp := ts2 }]) := by
  refine ⟨upsert_wf c docs ts hwf, ?_, ?_⟩
  · intro route
    exact nodup_filter_id_le_one _ route (upsert_wf c docs ts hwf).2
  · intro d1 d2 ts1 ts2 hr
    have hwf1 := upsert_wf c [d1] ts1 hwf
    rw [upsert_single _ d2 ts2 hwf1, List.filter_append,
      filter_id_collDelete_eq_nil _ _ hwf1.1]
    simp

/-- Witness for C3: starting from the empty collection, upserting route
`/llms.txt/r` twice with different contents leaves exactly the second
call's record. -/
theorem c3_upsert_route_invariant_witness :
    ((FeatureStore.upsert_docs
        (FeatureStore.upsert_docs []
          [{ route := "/llms.txt/r", description := "d1", title := "t",
             content := "c1" }] "ts1").1
        [{ route := "/llms.txt/r", description := "d2", title := "t",
           content := "c2" }] "ts2").1.filter
      (fun r => r.id == "/llms.txt/r")) =
    [{ id := "/llms.txt/r", document := "c2", route := "/llms.txt/r",
       description := "d2", timestamp := "ts2" }] :=
  (c3_upsert_route_invariant [] [] "ts"
      ⟨fun r hr => absurd hr (List.not_mem_nil r), List.nodup_nil⟩).2.2
    { route := "/llms.txt/r", description := "d1", title := "t", content := "c1" }
    { route := "/llms.txt/r", description := "d2", title := "t", content := "c2" }
    "ts1" "ts2" rfl

/-- Replacing the value under key `k` does not change the key list (the
overwritten pair keeps its key), and appending adds `k` at the end. -/
theorem dictInsert_map_fst (d : List (String × TocMeta)) (k : String) (v : TocMeta) :
    (dictInsert d k v).map Prod.fst =
      if d.any (fun p => p.1 == k) then d.map Prod.fst
      else d.map Prod.fst ++ [k] := by
  rw [dictInsert]
  split
  · rw [List.map_map]
    apply List.map_congr_left
    intro p _
    by_cases hp : p.1 = k
    · simp [hp]
    · simp [hp]
  · rw [List.map_append]
    rfl

/-- `d[k] = v` makes lookup of `k` find `v`. -/
theorem find?_dictInsert_self (d : List (String × TocMeta)) (k : String) (v : TocMeta) :
    (dictInsert d k v).find? (fun p => p.1 == k) = some (k, v) := by
  rw [dictInsert]
  split
  · rename_i hany
    induction d with
    | nil => simp at hany
    | cons a rest ih =>
      by_cases ha : a.1 = k
      · simp [List.find?_cons, ha]
      · simp only [List.any_cons, Bool.or_eq_true, beq_iff_eq] at hany
        rcases hany with h | h
        · exact absurd h ha
        · simp only [List.map_cons]
          rw [if_neg (by simpa using ha)]
          rw [List.find?_cons_of_neg _ (by simpa using ha)]
          exact ih h
  · rename_i hany
    induction d with
    | nil => simp [List.find?_cons]
    | cons a rest ih =>
      simp only [List.any_cons, Bool.or_eq_true, beq_iff_eq] at hany
      push_neg at hany
      simp only [List.cons_append]
      rw [List.find?_cons_of_neg _ (by simpa using hany.1)]
      exact ih (by simpa using hany.2)

/-- `d[k] = v` leaves lookups of other keys unchanged. -/
theorem find?_dictInsert_ne (d : List (String × TocMeta)) (k : String) (v : TocMeta)
    (q : String) (hq : q ≠ k) :
    (dictInsert d k v).find? (fun p => p.1 == q) = d.find? (fun p => p.1 == q) := by
  rw [dictInsert]
  split
  all_goals rename_i hany
  all_goals clear hany
  · induction d with
    | nil => rfl
    | cons a rest ih =>
      simp only [List.map_cons]
      by_cases ha : a.1 = k
      · rw [if_pos (by simpa using ha)]
        rw [List.find?_cons_of_neg _ (by simpa using (hq ∘ Eq.symm : ¬ k = q))]
        rw [List.find?_cons_of_neg _ (by simp [ha]; exact fun h => hq h.symm)]
        exact ih
      · rw [if_neg (by simpa using ha)]
        by_cases haq : a.1 = q
        · rw [List.find?_cons_of_pos _ (by simpa using haq),
            List.find?_cons_of_pos _ (by simpa using haq)]
        · rw [List.find?_cons_of_neg _ (by simpa using haq),
            List.find?_cons_of_neg _ (by simpa using haq)]
          exact ih
  · induction d with
    | nil =>
      simp only [List.nil_append]
      rw [List.find?_cons_of_neg _ (by simpa using (hq ∘ Eq.symm : ¬ k = q))]
    | cons a rest ih =>
      simp only [List.cons_append]
      by_cases haq : a.1 = q
      · rw [List.find?_cons_of_pos _ (by simpa using haq),
          List.find?_cons_of_pos _ (by simpa using haq)]
      · rw [List.find?_cons_of_neg _ (by simpa using haq),
          List.find?_cons_of_neg _ (by simpa using haq)]
        exact ih

/-- `dictInsert` preserves distinctness of the keys. -/
theorem dictInsert_keys_nodup (d : List (String × TocMeta)) (k : String) (v : TocMeta)
    (h : (d.map Prod.fst).Nodup) : ((dictInsert d k v).map Prod.fst).Nodup := by
  rw [dictInsert_map_fst]
  split
  · exact h
  · rename_i hany
    rw [List.nodup_append]
    refine ⟨h, List.nodup_singleton k, ?_⟩
    intro a ha hb
    simp only [List.mem_singleton] at hb
    subst hb
    obtain ⟨p, hp, hpk⟩ := List.mem_map.mp ha
    exact hany (List.any_eq_true.mpr ⟨p, hp, by simpa using hpk⟩)

/-- The keys after `dictInsert` are the old keys plus `k`. -/
theorem mem_keys_dictInsert (d : List (String × TocMeta)) (k : String) (v : TocMeta)
    (q : String) :
    q ∈ (dictInsert d k v).map Prod.fst ↔ q = k ∨ q ∈ d.map Prod.fst := by
  rw [dictInsert_map_fst]
  split
  · rename_i hany
    constructor
    · exact Or.inr
    · rintro (rfl | h)
      · obtain ⟨p, hp, hpk⟩ := List.any_eq_true.mp hany
        exact List.mem_map.mpr ⟨p, hp, by simpa using hpk⟩
      · exact h
  · simp [List.mem_append, or_comm]

theorem getLast?_cons_eq {α : Type} (a : α) (l : List α) :
    (a :: l).getLast? = some (l.getLast?.getD a) := by
  induction l generalizing a with
  | nil => rfl
  | cons b m ih =>
    rw [List.getLast?_cons_cons, ih b]
    cases hm : m.getLast? with
    | none => simp [hm]
    | some p => simp [hm]

/-- `parse_toc`'s fold over lines equals a fold of `dictInsert` over the
entries the lines contribute. -/
theorem foldl_lines_eq_foldl_entries (lines : List (List Char)) :
    ∀ d, lines.foldl
        (fun d line =>
          match lineEntry line with
          | none => d
          | some (r, m) => dictInsert d r m) d =
      (lines.filterMap lineEntry).foldl (fun d p => dictInsert d p.1 p.2) d := by
  induction lines with
  | nil => intro d; rfl
  | cons l rest ih =>
    intro d
    cases h : lineEntry l with
    | none =>
      simp only [List.foldl_cons, List.filterMap_cons, h]
      exact ih d
    | some p =>
      obtain ⟨r, m⟩ := p
      simp only [List.foldl_cons, List.filterMap_cons, h]
      exact ih (dictInsert d r m)

/-- The fold of `dictInsert` keeps the keys pairwise distinct. -/
theorem foldl_dictInsert_keys_nodup (es : List (String × TocMeta)) :
    ∀ d, (d.map Prod.fst).Nodup →
      ((es.foldl (fun d p => dictInsert d p.1 p.2) d).map Prod.fst).Nodup := by
  induction es with
  | nil => intro d h; exact h
  | cons e rest ih =>
    intro d h
    exact ih _ (dictInsert_keys_nodup d e.1 e.2 h)

/-- The keys after the fold are the initial keys plus every inserted key. -/
theorem mem_keys_foldl_dictInsert (es : List (String × TocMeta)) :
    ∀ d q, (q ∈ ((es.foldl (fun d p => dictInsert d p.1 p.2) d).map Prod.fst) ↔
      q ∈ d.map Prod.fst ∨ q ∈ es.map Prod.fst) := by
  induction es with
  | nil => intro d q; simp
  | cons e rest ih =>
    intro d q
    rw [List.foldl_cons, ih, mem_keys_dictInsert]
    simp only [List.map_cons, List.mem_cons]
    tauto

/-- Lookup after the fold returns the last inserted value for the key, and
falls back to the initial dictionary when the key was never inserted. -/
theorem lookupToc_foldl_dictInsert (es : List (String × TocMeta)) :
    ∀ d q, lookupToc (es.foldl (fun d p => dictInsert d p.1 p.2) d) q =
      match (es.filter (fun p => p.1 == q)).getLast? with
      | some p => some p.2
      | none => lookupToc d q := by
  induction es with
  | nil => intro d q; rfl
  | cons e rest ih =>
    intro d q
    rw [List.foldl_cons, ih]
    by_cases hq : e.1 = q
    · subst hq
      rw [List.filter_cons_of_pos (by simp), getLast?_cons_eq]
      cases hrest : (rest.filter (fun p => p.1 == e.1)).getLast? with
      | some p => simp [hrest]
      | none =>
        simp only [hrest, Option.getD_none]
        rw [lookupToc, find?_dictInsert_self]
        rfl
    · rw [List.filter_cons_of_neg (by simpa using hq)]
      cases hrest : (rest.filter (fun p => p.1 == q)).getLast? with
      | some p => simp [hrest]
      | none =>
        simp only [hrest]
        rw [lookupToc, lookupToc, find?_dictInsert_ne d e.1 e.2 q (fun h => hq h.symm)]

/-- Claim C5 counterexample: an input with two well-formed link lines that
share a route yields one entry, not two — "exactly N entries" fails when
routes repeat (the duplicate resolves to the last occurrence). -/
theorem c5_counterexample :
    ((splitLines ("[A](/llms.txt/r): one\n[B](/llms.txt/r): two").toList).filterMap
        lineEntry).length = 2 ∧
    (parse_toc "[A](/llms.txt/r): one\n[B](/llms.txt/r): two").length = 1 ∧
    parse_toc "[A](/llms.txt/r): one\n[B](/llms.txt/r): two" =
      [("/llms.txt/r", { title := "B", description := "two" })] := by
  refine ⟨by decide, by decide, by decide⟩

/-- Claim C5 (amended): the parser yields exactly one entry per distinct
route among the well-formed link lines — its keys are pairwise distinct
and are exactly the routes contributed by those lines (heading and
malformed lines contribute nothing), so it yields exactly N entries when
the N well-formed lines carry distinct routes; a route's value comes from
the last well-formed line carrying that route. On the sample input the
parser returns exactly the stated single-entry mapping. -/
theorem c5_parser_yields_link_entries (text : String) :
    ((parse_toc text).map Prod.fst).Nodup ∧
    (∀ route, (route ∈ (parse_toc text).map Prod.fst ↔
      route ∈ ((splitLines text.toList).filterMap lineEntry).map Prod.fst)) ∧
    (∀ route, lookupToc (parse_toc text) route =
      ((((splitLines text.toList).filterMap lineEntry).filter
          (fun p => p.1 == route)).getLast?).map Prod.snd) ∧
    parse_toc "[Auth](/llms.txt/docs/auth.md): Authentication guide\n### Category\n[Bad link](nope)" =
      [("/llms.txt/docs/auth.md",
        { title := "Auth", description := "Authentication guide" })] := by
  refine ⟨?_, ?_, ?_, by decide⟩
  · rw [parse_toc, foldl_lines_eq_foldl_entries]
    exact foldl_dictInsert_keys_nodup _ [] (by simp)
  · intro route
    rw [parse_toc, foldl_lines_eq_foldl_entries, mem_keys_foldl_dictInsert]
    simp
  · intro route
    rw [parse_toc, foldl_lines_eq_foldl_entries, lookupToc_foldl_dictInsert]
    cases h : (((splitLines text.toList).filterMap lineEntry).filter
        (fun p => p.1 == route)).getLast? with
    | none => rfl
    | some p => rfl

theorem lookupJ_append (l1 l2 : List (String × Chatbot.Json)) (k : String) :
    Chatbot.lookupJ (l1 ++ l2) k =
      match Chatbot.lookupJ l1 k with
      | some v => some v
      | none => Chatbot.lookupJ l2 k := by
  induction l1 with
  | nil => rfl
  | cons a rest ih =>
    obtain ⟨ak, av⟩ := a
    by_cases hk : ak = k
    · simp [Chatbot.lookupJ, hk]
    · simp only [List.cons_append, Chatbot.lookupJ]
      rw [if_neg (by simpa using hk), if_neg (by simpa using hk)]
      exact ih

/-- The `type` fragment: empty when the key is absent, a single uppercased
`type` pair when present with a string value; any other value raises. -/
theorem typeField_shape (kvs : List (String × Chatbot.Json))
    (t : List (String × Chatbot.Json)) (h : Chatbot.typeField kvs = some t) :
    (Chatbot.lookupJ kvs "type" = none ∧ t = []) ∨
    (∃ s, Chatbot.lookupJ kvs "type" = some (Chatbot.Json.str s) ∧
      t = [("type", Chatbot.Json.str (pyUpper s))]) := by
  rw [Chatbot.typeField] at h
  split at h
  · exact Or.inl ⟨by assumption, by injection h with h2; exact h2.symm⟩
  · rename_i s hs
    exact Or.inr ⟨s, hs, by injection h with h2; exact h2.symm⟩
  · exact Option.noConfusion h

/-- The `description` fragment copies the value verbatim. -/
theorem descField_shape (kvs : List (String × Chatbot.Json)) :
    (Chatbot.lookupJ kvs "description" = none ∧ Chatbot.descField kvs = []) ∨
    (∃ v, Chatbot.lookupJ kvs "description" = some v ∧
      Chatbot.descField kvs = [("description", v)]) := by
  rw [Chatbot.descField]
  split
  · exact Or.inl ⟨by assumption, rfl⟩
  · rename_i v hv
    exact Or.inr ⟨v, hv, rfl⟩

/-- The `required` fragment copies the value verbatim. -/
theorem reqField_shape (kvs : List (String × Chatbot.Json)) :
    (Chatbot.lookupJ kvs "required" = none ∧ Chatbot.reqField kvs = []) ∨
    (∃ v, Chatbot.lookupJ kvs "required" = some v ∧
      Chatbot.reqField kvs = [("required", v)]) := by
  rw [Chatbot.reqField]
  split
  · exact Or.inl ⟨by assumption, rfl⟩
  · rename_i v hv
    exact Or.inr ⟨v, hv, rfl⟩

/-- The `properties` fragment: empty when the key is absent, otherwise the
key's object value translated field by field; a non-object value raises. -/
theorem propsField_shape (f : Chatbot.Json → Option Chatbot.Json)
    (kvs p : List (String × Chatbot.Json)) (h : Chatbot.propsField f kvs = some p) :
    (Chatbot.lookupJ kvs "properties" = none ∧ p = []) ∨
    (∃ ps qs, Chatbot.lookupJ kvs "properties" = some (Chatbot.Json.obj ps) ∧
      Chatbot.mapFieldsWith f ps = some qs ∧
      p = [("properties", Chatbot.Json.obj qs)]) := by
  rw [Chatbot.propsField] at h
  split at h
  · exact Or.inl ⟨by assumption, by injection h with h2; exact h2.symm⟩
  · rename_i ps hps
    cases hqs : Chatbot.mapFieldsWith f ps with
    | none =>
      rw [hqs] at h
      exact Option.noConfusion h
    | some qs =>
      rw [hqs] at h
      injection h with h2
      exact Or.inr ⟨ps, qs, hps, hqs, h2.symm⟩
  · exact Option.noConfusion h

/-- The `items` fragment: empty when the key is absent, otherwise the key's
value translated recursively. -/
theorem itemsField_shape (f : Chatbot.Json → Option Chatbot.Json)
    (kvs : List (String × Chatbot.Json)) (i : List (String × Chatbot.Json))
    (h : Chatbot.itemsField f kvs = some i) :
    (Chatbot.lookupJ kvs "items" = none ∧ i = []) ∨
    (∃ v w, Chatbot.lookupJ kvs "items" = some v ∧ f v = some w ∧
      i = [("items", w)]) := by
  rw [Chatbot.itemsField] at h
  split at h
  · exact Or.inl ⟨by assumption, by injection h with h2; exact h2.symm⟩
  · rename_i v hv
    cases hw : f v with
    | none =>
      rw [hw] at h
      exact Option.noConfusion h
    | some w =>
      rw [hw] at h
      injection h with h2
      exact Or.inr ⟨v, w, hv, hw, h2.symm⟩

/-- Every value in the output of the field-by-field translation is the
image of some input value under the translation. -/
theorem mapFieldsWith_mem (f : Chatbot.Json → Option Chatbot.Json) :
    ∀ (ps qs : List (String × Chatbot.Json)), Chatbot.mapFieldsWith f ps = some qs →
      ∀ q ∈ qs, ∃ v, f v = some q.2 := by
  intro ps
  induction ps with
  | nil =>
    intro qs h q hq
    rw [Chatbot.mapFieldsWith] at h
    injection h with h2
    subst h2
    exact absurd hq (List.not_mem_nil q)
  | cons a rest ih =>
    intro qs h q hq
    obtain ⟨ak, av⟩ := a
    rw [Chatbot.mapFieldsWith] at h
    cases hv2 : f av with
    | none =>
      rw [hv2] at h
      exact Option.noConfusion h
    | some v2 =>
      rw [hv2] at h
      cases hrest2 : Chatbot.mapFieldsWith f rest with
      | none =>
        rw [hrest2] at h
        exact Option.noConfusion h
      | some rest2 =>
        rw [hrest2] at h
        injection h with h2
        subst h2
        rcases List.mem_cons.mp hq with rfl | hmem
        · exact ⟨av, hv2⟩
        · exact ih rest2 hrest2 q hmem

/-- A successful translation step decomposes into its five fragments. -/
theorem j2gF_succ_obj (n : Nat) (kvs : List (String × Chatbot.Json))
    (g : Chatbot.Json) (h : Chatbot.j2gF (n + 1) (Chatbot.Json.obj kvs) = some g) :
    ∃ t p i, Chatbot.typeField kvs = some t ∧
      Chatbot.propsField (Chatbot.j2gF n) kvs = some p ∧
      Chatbot.itemsField (Chatbot.j2gF n) kvs = some i ∧
      g = Chatbot.Json.obj
        (t ++ Chatbot.descField kvs ++ p ++ Chatbot.reqField kvs ++ i) := by
  simp only [Chatbot.j2gF] at h
  cases ht : Chatbot.typeField kvs with
  | none =>
    rw [ht] at h
    exact Option.noConfusion h
  | some t =>
    rw [ht] at h
    cases hp : Chatbot.propsField (Chatbot.j2gF n) kvs with
    | none =>
      rw [hp] at h
      exact Option.noConfusion h
    | some p =>
      rw [hp] at h
      cases hi : Chatbot.itemsField (Chatbot.j2gF n) kvs with
      | none =>
        rw [hi] at h
        exact Option.noConfusion h
      | some i =>
        rw [hi] at h
        injection h with h2
        exact ⟨t, p, i, rfl, rfl, rfl, h2.symm⟩

/-- Every successful translation output has only Gemini-supported keys, at
every level reachable through `properties` values and `items`. -/
theorem onlyGeminiKeys_of_j2gF : ∀ (fuel : Nat) (j g : Chatbot.Json),
    Chatbot.j2gF fuel j = some g → Chatbot.OnlyGeminiKeys g := by
  intro fuel
  induction fuel with
  | zero =>
    intro j g h
    exact Option.noConfusion h
  | succ n ih =>
    intro j g h
    cases j with
    | obj kvs =>
      obtain ⟨t, p, i, ht, hp, hi, rfl⟩ := j2gF_succ_obj n kvs g h
      refine Chatbot.OnlyGeminiKeys.mk _ ?_ ?_ ?_
      · intro q hq
        simp only [List.append_assoc, List.mem_append] at hq
        rcases hq with hq | hq | hq | hq | hq
        · rcases typeField_shape kvs t ht with ⟨_, rfl⟩ | ⟨s, _, rfl⟩ <;>
            simp_all [Chatbot.geminiKeys]
        · rcases descField_shape kvs with ⟨_, hd⟩ | ⟨v, _, hd⟩ <;>
            rw [hd] at hq <;> simp_all [Chatbot.geminiKeys]
        · rcases propsField_shape (Chatbot.j2gF n) kvs p hp with ⟨_, rfl⟩ |
            ⟨ps, qs, _, _, rfl⟩ <;> simp_all [Chatbot.geminiKeys]
        · rcases reqField_shape kvs with ⟨_, hr⟩ | ⟨v, _, hr⟩ <;>
            rw [hr] at hq <;> simp_all [Chatbot.geminiKeys]
        · rcases itemsField_shape (Chatbot.j2gF n) kvs i hi with ⟨_, rfl⟩ |
            ⟨v, w, _, _, rfl⟩ <;> simp_all [Chatbot.geminiKeys]
      · intro ps hlook q hqps
        rcases propsField_shape (Chatbot.j2gF n) kvs p hp with ⟨_, rfl⟩ |
          ⟨ps2, qs, _, hmap, rfl⟩
        · exfalso
          rcases typeField_shape kvs t ht with ⟨_, rfl⟩ | ⟨s, _, rfl⟩ <;>
            rcases descField_shape kvs with ⟨_, hd⟩ | ⟨v, _, hd⟩ <;>
            rcases reqField_shape kvs with ⟨_, hr⟩ | ⟨v2, _, hr⟩ <;>
            rcases itemsField_shape (Chatbot.j2gF n) kvs i hi with ⟨_, rfl⟩ |
              ⟨v3, w, _, _, rfl⟩ <;>
            rw [hd, hr] at hlook <;> simp [Chatbot.lookupJ] at hlook
        · have hqv : Chatbot.lookupJ
              (t ++ Chatbot.descField kvs ++ [("properties", Chatbot.Json.obj qs)] ++
                Chatbot.reqField kvs ++ i) "properties" =
              some (Chatbot.Json.obj qs) := by
            rcases typeField_shape kvs t ht with ⟨_, rfl⟩ | ⟨s, _, rfl⟩ <;>
              rcases descField_shape kvs with ⟨_, hd⟩ | ⟨v, _, hd⟩ <;>
              rw [hd] <;> simp [lookupJ_append, Chatbot.lookupJ]
          rw [hqv] at hlook
          injection hlook with hlook2
          injection hlook2 with hlook3
          rw [← hlook3] at hqps
          obtain ⟨v, hv⟩ := mapFieldsWith_mem (Chatbot.j2gF n) ps2 qs hmap q hqps
          exact ih v q.2 hv
      · intro v hlook
        rcases itemsField_shape (Chatbot.j2gF n) kvs i hi with ⟨_, rfl⟩ |
          ⟨v2, w, _, hw, rfl⟩
        · exfalso
          rcases typeField_shape kvs t ht with ⟨_, rfl⟩ | ⟨s, _, rfl⟩ <;>
            rcases descField_shape kvs with ⟨_, hd⟩ | ⟨v4, _, hd⟩ <;>
            rcases reqField_shape kvs with ⟨_, hr⟩ | ⟨v2, _, hr⟩ <;>
            rcases propsField_shape (Chatbot.j2gF n) kvs p hp with ⟨_, rfl⟩ |
              ⟨ps, qs, _, _, rfl⟩ <;>
            rw [hd, hr] at hlook <;> simp [Chatbot.lookupJ] at hlook
        · have hqv : Chatbot.lookupJ
              (t ++ Chatbot.descField kvs ++ p ++ Chatbot.reqField kvs ++
                [("items", w)]) "items" = some w := by
            rcases typeField_shape kvs t ht with ⟨_, rfl⟩ | ⟨s, _, rfl⟩ <;>
              rcases descField_shape kvs with ⟨_, hd⟩ | ⟨v4, _, hd⟩ <;>
              rcases reqField_shape kvs with ⟨_, hr⟩ | ⟨v5, _, hr⟩ <;>
              rcases propsField_shape (Chatbot.j2gF n) kvs p hp with ⟨_, rfl⟩ |
                ⟨ps, qs, _, _, rfl⟩ <;>
              rw [hd, hr] <;> simp [lookupJ_append, Chatbot.lookupJ]
          rw [hqv] at hlook
          injection hlook with hlook2
          rw [hlook2] at hw
          exact ih v2 v hw
    | null => exact absurd h (by simp [Chatbot.j2gF])
    | bool b => exact absurd h (by simp [Chatbot.j2gF])
    | num m => exact absurd h (by simp [Chatbot.j2gF])
    | str s => exact absurd h (by simp [Chatbot.j2gF])
    | arr es => exact absurd h (by simp [Chatbot.j2gF])

theorem lookupJ_append_none (l1 l2 : List (String × Chatbot.Json)) (k : String)
    (h : Chatbot.lookupJ l1 k = none) :
    Chatbot.lookupJ (l1 ++ l2) k = Chatbot.lookupJ l2 k := by
  rw [lookupJ_append, h]

theorem lookupJ_append_some (l1 l2 : List (String × Chatbot.Json)) (k : String)
    (v : Chatbot.Json) (h : Chatbot.lookupJ l1 k = some v) :
    Chatbot.lookupJ (l1 ++ l2) k = some v := by
  rw [lookupJ_append, h]

theorem typeField_lookup_ne (kvs t : List (String × Chatbot.Json))
    (h : Chatbot.typeField kvs = some t) (k : String) (hk : k ≠ "type") :
    Chatbot.lookupJ t k = none := by
  rcases typeField_shape kvs t h with ⟨_, rfl⟩ | ⟨s, _, rfl⟩
  · rfl
  · simp [Chatbot.lookupJ, Ne.symm hk]

theorem descField_lookup_ne (kvs : List (String × Chatbot.Json)) (k : String)
    (hk : k ≠ "description") :
    Chatbot.lookupJ (Chatbot.descField kvs) k = none := by
  rcases descField_shape kvs with ⟨_, hd⟩ | ⟨v, _, hd⟩ <;> rw [hd]
  · rfl
  · simp [Chatbot.lookupJ, Ne.symm hk]

theorem reqField_lookup_ne (kvs : List (String × Chatbot.Json)) (k : String)
    (hk : k ≠ "required") :
    Chatbot.lookupJ (Chatbot.reqField kvs) k = none := by
  rcases reqField_shape kvs with ⟨_, hr⟩ | ⟨v, _, hr⟩ <;> rw [hr]
  · rfl
  · simp [Chatbot.lookupJ, Ne.symm hk]

theorem propsField_lookup_ne (f : Chatbot.Json → Option Chatbot.Json)
    (kvs p : List (String × Chatbot.Json)) (h : Chatbot.propsField f kvs = some p)
    (k : String) (hk : k ≠ "properties") :
    Chatbot.lookupJ p k = none := by
  rcases propsField_shape f kvs p h with ⟨_, rfl⟩ | ⟨ps, qs, _, _, rfl⟩
  · rfl
  · simp [Chatbot.lookupJ, Ne.symm hk]

theorem itemsField_lookup_ne (f : Chatbot.Json → Option Chatbot.Json)
    (kvs i : List (String × Chatbot.Json)) (h : Chatbot.itemsField f kvs = some i)
    (k : String) (hk : k ≠ "items") :
    Chatbot.lookupJ i k = none := by
  rcases itemsField_shape f kvs i h with ⟨_, rfl⟩ | ⟨v, w, _, _, rfl⟩
  · rfl
  · simp [Chatbot.lookupJ, Ne.symm hk]

theorem lookupJ_eq_none (l : List (String × Chatbot.Json)) (k : String)
    (h : ∀ q ∈ l, q.1 ≠ k) : Chatbot.lookupJ l k = none := by
  induction l with
  | nil => rfl
  | cons a rest ih =>
    obtain ⟨ak, av⟩ := a
    rw [Chatbot.lookupJ, if_neg (by simpa using h (ak, av) (List.mem_cons_self _ _))]
    exact ih fun q hq => h q (List.mem_cons_of_mem _ hq)

theorem jsonSize_pos (j : Chatbot.Json) : 0 < Chatbot.jsonSize j := by
  cases j <;> simp [Chatbot.jsonSize]

/-- Claim C9: for every JSON-Schema-like input object (one on which the
translation succeeds — Python raises on a non-string `type`, a non-dict
`properties` or recursion into a non-dict), `json_schema_to_gemini_schema`
preserves only the keys `type`, `description`, `properties`, `required`
and `items`, at every level reachable through `properties` values and
`items`; it uppercases the type name, copies `description` and `required`
verbatim, keeps every supported key that was present in the input, and
silently drops every other JSON-Schema keyword. -/
theorem c9_schema_translation (j g : Chatbot.Json)
    (h : Chatbot.json_schema_to_gemini_schema j = some g) :
    Chatbot.OnlyGeminiKeys g ∧
    (∀ s, Chatbot.lookupTop j "type" = some (Chatbot.Json.str s) →
      Chatbot.lookupTop g "type" = some (Chatbot.Json.str (pyUpper s))) ∧
    (∀ v, Chatbot.lookupTop j "description" = some v →
      Chatbot.lookupTop g "description" = some v) ∧
    (∀ v, Chatbot.lookupTop j "required" = some v →
      Chatbot.lookupTop g "required" = some v) ∧
    (∀ k, k ∉ Chatbot.geminiKeys → Chatbot.lookupTop g k = none) ∧
    (∀ k, k ∈ Chatbot.geminiKeys → (Chatbot.lookupTop j k).isSome →
      (Chatbot.lookupTop g k).isSome) := by
  rw [Chatbot.json_schema_to_gemini_schema] at h
  have hOnly : Chatbot.OnlyGeminiKeys g := onlyGeminiKeys_of_j2gF _ j g h
  obtain ⟨n, hn⟩ : ∃ n, Chatbot.jsonSize j = n + 1 :=
    ⟨Chatbot.jsonSize j - 1, by have := jsonSize_pos j; omega⟩
  rw [hn] at h
  cases j with
  | null => exact absurd h (by simp [Chatbot.j2gF])
  | bool b => exact absurd h (by simp [Chatbot.j2gF])
  | num m => exact absurd h (by simp [Chatbot.j2gF])
  | str s => exact absurd h (by simp [Chatbot.j2gF])
  | arr es => exact absurd h (by simp [Chatbot.j2gF])
  | obj kvs =>
    obtain ⟨t, p, i, ht, hp, hi, rfl⟩ := j2gF_succ_obj n kvs g h
    refine ⟨hOnly, ?_, ?_, ?_, ?_, ?_⟩
    · intro s hs
      simp only [Chatbot.lookupTop] at hs ⊢
      rcases typeField_shape kvs t ht with ⟨hnone, rfl⟩ | ⟨s2, hs2, rfl⟩
      · rw [hnone] at hs
        exact Option.noConfusion hs
      · rw [hs2] at hs
        injection hs with hs3
        injection hs3 with hs4
        subst hs4
        simp [lookupJ_append, Chatbot.lookupJ]
    · intro v hv
      simp only [Chatbot.lookupTop] at hv ⊢
      rcases descField_shape kvs with ⟨hnone, hd⟩ | ⟨v2, hv2, hd⟩
      · rw [hnone] at hv
        exact Option.noConfusion hv
      · rw [hv2] at hv
        injection hv with hv3
        subst hv3
        rw [hd]
        simp [lookupJ_append, Chatbot.lookupJ,
          typeField_lookup_ne kvs t ht "description" (by decide)]
    · intro v hv
      simp only [Chatbot.lookupTop] at hv ⊢
      rcases reqField_shape kvs with ⟨hnone, hr⟩ | ⟨v2, hv2, hr⟩
      · rw [hnone] at hv
        exact Option.noConfusion hv
      · rw [hv2] at hv
        injection hv with hv3
        subst hv3
        rw [hr]
        simp [lookupJ_append, Chatbot.lookupJ,
          typeField_lookup_ne kvs t ht "required" (by decide),
          descField_lookup_ne kvs "required" (by decide),
          propsField_lookup_ne (Chatbot.j2gF n) kvs p hp "required" (by decide)]
    · intro k hk
      cases hOnly with
      | mk kvs2 hkeys hprops hitems =>
        simp only [Chatbot.lookupTop]
        exact lookupJ_eq_none _ k fun q hq heq => hk (heq ▸ hkeys q hq)
    · intro k hk hsome
      simp only [Chatbot.geminiKeys, List.mem_cons, List.not_mem_nil,
        or_false] at hk
      simp only [Chatbot.lookupTop] at hsome ⊢
      rcases hk with rfl | rfl | rfl | rfl | rfl
      · rcases typeField_shape kvs t ht with ⟨hnone, rfl⟩ | ⟨s2, hs2, rfl⟩
        · rw [hnone] at hsome
          simp at hsome
        · simp [lookupJ_append, Chatbot.lookupJ]
      · rcases descField_shape kvs with ⟨hnone, hd⟩ | ⟨v2, hv2, hd⟩
        · rw [hnone] at hsome
          simp at hsome
        · rw [hd]
          simp [lookupJ_append, Chatbot.lookupJ,
            typeField_lookup_ne kvs t ht "description" (by decide)]
      · rcases propsField_shape (Chatbot.j2gF n) kvs p hp with ⟨hnone, rfl⟩ |
          ⟨ps, qs, hlook, hmap, rfl⟩
        · rw [hnone] at hsome
          simp at hsome
        · simp [lookupJ_append, Chatbot.lookupJ,
            typeField_lookup_ne kvs t ht "properties" (by decide),
            descField_lookup_ne kvs "properties" (by decide)]
      · rcases reqField_shape kvs with ⟨hnone, hr⟩ | ⟨v2, hv2, hr⟩
        · rw [hnone] at hsome
          simp at hsome
        · rw [hr]
          simp [lookupJ_append, Chatbot.lookupJ,
            typeField_lookup_ne kvs t ht "required" (by decide),
            descField_lookup_ne kvs "required" (by decide),
            propsField_lookup_ne (Chatbot.j2gF n) kvs p hp "required" (by decide)]
      · rcases itemsField_shape (Chatbot.j2gF n) kvs i hi with ⟨hnone, rfl⟩ |
          ⟨v2, w, hlook, hw, rfl⟩
        · rw [hnone] at hsome
          simp at hsome
        · simp [lookupJ_append, Chatbot.lookupJ,
            typeField_lookup_ne kvs t ht "items" (by decide),
            descField_lookup_ne kvs "items" (by decide),
            propsField_lookup_ne (Chatbot.j2gF n) kvs p hp "items" (by decide),
            reqField_lookup_ne kvs "items" (by decide)]

/-- Witness for C9: translating the `read_page`-style input schema — which
carries the unsupported keywords `additionalProperties` and `format` — the
output drops `additionalProperties` at the top level (and, per the main
theorem, `format` below). -/
theorem c9_schema_translation_witness :
    Chatbot.lookupTop
      (Chatbot.Json.obj
        [("type", Chatbot.Json.str "OBJECT"),
         ("properties", Chatbot.Json.obj
           [("page_route", Chatbot.Json.obj
             [("type", Chatbot.Json.str "STRING")])]),
         ("required", Chatbot.Json.arr [Chatbot.Json.str "page_route"])])
      "additionalProperties" = none :=
  (c9_schema_translation
      (Chatbot.Json.obj
        [("type", Chatbot.Json.str "object"),
         ("properties", Chatbot.Json.obj
           [("page_route", Chatbot.Json.obj
             [("type", Chatbot.Json.str "string"),
              ("format", Chatbot.Json.str "path")])]),
         ("required", Chatbot.Json.arr [Chatbot.Json.str "page_route"]),
         ("additionalProperties", Chatbot.Json.bool false)])
      (Chatbot.Json.obj
        [("type", Chatbot.Json.str "OBJECT"),
         ("properties", Chatbot.Json.obj
           [("page_route", Chatbot.Json.obj
             [("type", Chatbot.Json.str "STRING")])]),
         ("required", Chatbot.Json.arr [Chatbot.Json.str "page_route"])])
      (by rfl)).2.2.2.2.1 "additionalProperties" (by decide)

end BetterAuthMcp
